import Mathlib

/-!
Shallow embedding, in Lean 4, of the NPSAT steady-state groundwater code:
the stream-catalog subsystem (src/myheaders/streams.h, class Streams) and
the flow-orchestration subsystem (src/myheaders/steady_state.h, class
GWFLOW).  C++ doubles are modelled as exact real numbers; std::vector
indexing with operator[] is modelled with List.get?, where a read past the
end of a vector (undefined behaviour in the source) surfaces as an Option
failure (none) of the enclosing operation.
-/

/-- A 2-D point, the model of dealii Point of dimension dim-1 = 2. -/
abbrev Pt2 : Type := ℝ × ℝ

/-- A 3-D point, the model of ine_Point3 (a CGAL 3-D point). -/
abbrev Pt3 : Type := ℝ × ℝ × ℝ

/-- A triangle of 3-D points, the model of ine_Triangle. -/
abbrev Tri : Type := Pt3 × Pt3 × Pt3

/-- One line of the stream input file after the first: the record
X_start Y_start X_end Y_end Q_rate Width, as read_streams parses it
(streams.h lines 220-232). -/
structure StreamRecord where
  Ax : ℝ
  Ay : ℝ
  Bx : ℝ
  By : ℝ
  rate : ℝ
  halfWidth : ℝ

/-- The fields of the Streams class that make up the stream catalog
(streams.h lines 55-91).  The two scratch triangulations tria and
river_rect are not part of the catalog: every query overwrites all four
vertices of the scratch cell before using it, so the value a query returns
never depends on them; the point-inside test made on the reshaped scratch
cell is an external dealii predicate and is a parameter of the queries
below. -/
structure StreamsState where
  A : List Pt2
  B : List Pt2
  Q_rate : List ℝ
  length : List ℝ
  width : List ℝ
  stream_triangles : List Tri
  stream_ids : List ℕ
  N_seg : ℕ
  river_outline : List (List Pt2)
  Xmax : List ℝ
  Xmin : List ℝ
  Ymin : List ℝ
  Ymax : List ℝ
  Xoutline : List (List ℝ)
  Youtline : List (List ℝ)

/-- The state the Streams constructor leaves behind (streams.h lines
160-181): N_seg = 0 and every catalog container empty; the constructor only
builds the two scratch triangulations, which the catalog model omits. -/
def initStreams : StreamsState :=
  { A := [], B := [], Q_rate := [], length := [], width := [],
    stream_triangles := [], stream_ids := [], N_seg := 0,
    river_outline := [], Xmax := [], Xmin := [], Ymin := [], Ymax := [],
    Xoutline := [], Youtline := [] }

/-- Modelled from the spec: line_line_intersection is declared in
helper_functions.h, a repository header that is not among the given source
files.  Per the spec (section 4.1), the outline vertices are line-line
intersections and "A missing intersection (parallel lines) yields a
degenerate quadrilateral with fewer than 4 vertices", so the function
solves y = m1 x + b1 against y = m2 x + b2, returning none exactly when
the two lines are parallel (m1 = m2).  The argument order (b1, m1, b2, m2)
follows the call sites in streams.h lines 335-344. -/
noncomputable def line_line_intersection (b1 m1 b2 m2 : ℝ) : Option Pt2 :=
  if m1 = m2 then none
  else
    let x := (b2 - b1) / (m1 - m2)
    some (x, m1 * x + b1)

/-- Streams::create_river_outline (streams.h lines 299-348): converts the
segment AB with the given half width into the x and y coordinate lists of
a buffered outline.  A near-zero-length segment (both coordinate gaps
below 0.1) only logs a warning and produces an empty outline; an
axis-aligned segment produces the four offset vertices directly; otherwise
the four vertices are the pairwise intersections of the two offset lines
with the two perpendicular lines through A and B, each appended only when
line_line_intersection succeeds. -/
noncomputable def create_river_outline (A B : Pt2) (width : ℝ) :
    List ℝ × List ℝ :=
  if |A.1 - B.1| < 0.1 ∧ |A.2 - B.2| < 0.1 then
    ([], [])
  else if |A.1 - B.1| < 0.1 then
    ([A.1 - width, A.1 + width, B.1 - width, B.1 + width],
     [A.2, A.2, B.2, B.2])
  else if |A.2 - B.2| < 0.1 then
    ([A.1, A.1, B.1, B.1],
     [A.2 - width, A.2 + width, B.2 - width, B.2 + width])
  else
    let m := (B.2 - A.2) / (B.1 - A.1)
    let b := A.2 - m * A.1
    let b1 := b - width * Real.sqrt (m ^ 2 + 1)
    let b2 := width * Real.sqrt (m ^ 2 + 1) + b
    let m_p := -(1 / m)
    let b_a := A.2 - m_p * A.1
    let b_b := B.2 - m_p * B.1
    let pts := (line_line_intersection b_a m_p b1 m).toList ++
               (line_line_intersection b_a m_p b2 m).toList ++
               (line_line_intersection b_b m_p b2 m).toList ++
               (line_line_intersection b_b m_p b1 m).toList
    (pts.map Prod.fst, pts.map Prod.snd)

/-- The Euclidean distance of two planar points, the model of
dealii Point::distance used at streams.h line 230. -/
noncomputable def pointDistance (p q : Pt2) : ℝ :=
  Real.sqrt ((p.1 - q.1) ^ 2 + (p.2 - q.2) ^ 2)

/-- What one iteration of the read_streams segment loop stores for one
record (streams.h lines 221-260): the endpoints, rate, computed segment
length and width, the outline coordinate lists, the bounding box obtained
by folding min and max from the sentinels plus and minus 100000000, and
the two triangles cut from the outline. -/
structure SegEntry where
  A : Pt2
  B : Pt2
  q : ℝ
  len : ℝ
  w : ℝ
  xx : List ℝ
  yy : List ℝ
  xmin : ℝ
  xmax : ℝ
  ymin : ℝ
  ymax : ℝ
  tri1 : Tri
  tri2 : Tri

/-- One iteration of the read_streams segment loop (streams.h lines
221-260).  The triangle construction reads xx[0..3] and yy[0..3]
unconditionally; when the outline produced by create_river_outline has
fewer than 4 vertices those reads are past the end of the vectors, which
the model reports as none. -/
noncomputable def processRecord (r : StreamRecord) : Option SegEntry :=
  let o := create_river_outline (r.Ax, r.Ay) (r.Bx, r.By) r.halfWidth
  match o.1.get? 0, o.1.get? 1, o.1.get? 2, o.1.get? 3,
        o.2.get? 0, o.2.get? 1, o.2.get? 2, o.2.get? 3 with
  | some x0, some x1, some x2, some x3,
    some y0, some y1, some y2, some y3 =>
      some { A := (r.Ax, r.Ay), B := (r.Bx, r.By), q := r.rate,
             len := pointDistance (r.Ax, r.Ay) (r.Bx, r.By),
             w := r.halfWidth,
             xx := o.1, yy := o.2,
             xmin := o.1.foldl min 100000000,
             xmax := o.1.foldl max (-100000000),
             ymin := o.2.foldl min 100000000,
             ymax := o.2.foldl max (-100000000),
             tri1 := ((x0, y0, 0), (x1, y1, 0), (x2, y2, 0)),
             tri2 := ((x1, y1, 0), (x3, y3, 0), (x2, y2, 0)) }
  | _, _, _, _, _, _, _, _ => none

/-- The read_streams segment loop over the whole record list; none as soon
as one record makes the loop read past the end of its outline vectors. -/
noncomputable def processAll : List StreamRecord → Option (List SegEntry)
  | [] => some []
  | r :: rs =>
    match processRecord r, processAll rs with
    | some e, some es => some (e :: es)
    | _, _ => none

/-- How read_streams writes the loop results into the catalog fields: the
per-segment vectors are resized to N_seg and assigned slot by slot, so
they end up exactly the per-record values; stream_triangles and stream_ids
are appended to, two entries per record, the id being the loop index
(streams.h lines 207-261).  river_outline is never touched. -/
noncomputable def buildState (s : StreamsState) (es : List SegEntry) :
    StreamsState :=
  { s with
    N_seg := es.length,
    A := es.map SegEntry.A,
    B := es.map SegEntry.B,
    Q_rate := es.map SegEntry.q,
    length := es.map SegEntry.len,
    width := es.map SegEntry.w,
    Xoutline := es.map SegEntry.xx,
    Youtline := es.map SegEntry.yy,
    Xmin := es.map SegEntry.xmin,
    Xmax := es.map SegEntry.xmax,
    Ymin := es.map SegEntry.ymin,
    Ymax := es.map SegEntry.ymax,
    stream_triangles :=
      s.stream_triangles ++ es.flatMap (fun e => [e.tri1, e.tri2]),
    stream_ids :=
      s.stream_ids ++ (List.range es.length).flatMap (fun i => [i, i]) }

/-- Streams::read_streams (streams.h lines 193-266).  The input file is
modelled as none when the file cannot be opened, and otherwise as the
parsed record list (the first line N_seg followed by N_seg records).  An
open failure prints a message and returns false without touching any
catalog container.  A successful run stores every per-record entry and
returns true.  The overall none models a run whose segment loop read past
the end of an outline vector (undefined behaviour in the source). -/
noncomputable def read_streams (s : StreamsState)
    (file : Option (List StreamRecord)) : Option (Bool × StreamsState) :=
  match file with
  | none => some (false, s)
  | some recs =>
    match processAll recs with
    | some es => some (true, buildState s es)
    | none => none

/-- The body of the i_seg iteration of Streams::get_stream_rate (streams.h
lines 268-287) over a list of remaining segment indices.  The bounding-box
test reads Xmin[i], Xmax[i], Ymin[i], Ymax[i]; on a hit the code calls
setup_river_rect(river_outline[i_seg]), whose read of river_outline[i_seg]
(and, inside setup_river_rect, of outline[0..3]) is past the end whenever
river_outline has no 4-point entry at i_seg — reported as none.  The
point-inside test on the reshaped scratch cell is the external dealii
CellAccessor predicate, taken as the parameter pin applied to the four
copied vertices.  A positive test returns Q_rate[i_seg]; exhausting the
loop returns the initial rate 0. -/
noncomputable def get_stream_rate_loop
    (pin : List Pt2 → Pt2 → Bool) (s : StreamsState) (px py : ℝ) :
    List ℕ → Option ℝ
  | [] => some 0
  | i :: rest =>
    match s.Xmin.get? i, s.Xmax.get? i, s.Ymin.get? i, s.Ymax.get? i with
    | some xmn, some xmx, some ymn, some ymx =>
      if xmn ≤ px ∧ px ≤ xmx ∧ ymn ≤ py ∧ py ≤ ymx then
        match s.river_outline.get? i with
        | none => none
        | some outl =>
          if 4 ≤ outl.length then
            if pin (outl.take 4) (px, py) then
              match s.Q_rate.get? i with
              | some q => some q
              | none => none
            else get_stream_rate_loop pin s px py rest
          else none
      else get_stream_rate_loop pin s px py rest
    | _, _, _, _ => none

/-- Streams::get_stream_rate (streams.h lines 268-287): scan the segments
in catalog order, 0 up to N_seg - 1. -/
noncomputable def get_stream_rate (pin : List Pt2 → Pt2 → Bool)
    (s : StreamsState) (px py : ℝ) : Option ℝ :=
  get_stream_rate_loop pin s px py (List.range s.N_seg)

/-- The std::map insertion that get_stream_recharge uses to deduplicate
segment ids (streams.h lines 363-367): keys are kept strictly sorted and
an already-present key is left in place. -/
def insertSorted (k : ℕ) : List ℕ → List ℕ
  | [] => [k]
  | a :: t =>
    if k < a then k :: a :: t
    else if k = a then a :: t
    else a :: insertSorted k t

/-- The unique, ascending list of keys a std::map holds after inserting
every element of l in order; get_stream_recharge then iterates it from
begin() to end(). -/
def uniqueSorted (l : List ℕ) : List ℕ :=
  l.foldl (fun acc k => insertSorted k acc) []

/-- stream_ids[ids[i]] for every candidate triangle index, as the
deduplication loop of get_stream_recharge reads them (streams.h lines
365-367); none when a candidate index is past the end of stream_ids. -/
def lookupAll (table : List ℕ) : List ℕ → Option (List ℕ)
  | [] => some []
  | i :: rest =>
    match table.get? i, lookupAll table rest with
    | some v, some vs => some (v :: vs)
    | _, _ => none

/-- The result clip-candidate loop of get_stream_recharge (streams.h lines
368-379).  clip models polyXpoly; Modelled from the spec: polyXpoly lives
in a repository header that is not among the given source files, and per
the spec (section 4.3) it is a robust polygon-clip routine that yields an
intersection area and centroid, with an empty intersection or a Boost
failure producing no contribution — so it is modelled as an arbitrary
function to Option (centroid x, centroid y, area), none being the thrown
exception that the try/catch in the source catches and logs.  Each loop
step reads Xoutline[k] and Youtline[k] (past-the-end reads are undefined
behaviour, reported as none for the whole call); on clip success it reads
Q_rate[k] and appends the centroid and area times rate to the three output
vectors; on clip failure it appends nothing and moves on. -/
noncomputable def contribLoop
    (clip : List ℝ → List ℝ → List ℝ → List ℝ → Option (ℝ × ℝ × ℝ))
    (s : StreamsState) (xp yp : List ℝ) :
    List ℕ → List ℝ × List ℝ × List ℝ → Option (List ℝ × List ℝ × List ℝ)
  | [], acc => some acc
  | k :: rest, acc =>
    match s.Xoutline.get? k, s.Youtline.get? k with
    | some xo, some yo =>
      match clip xp yp xo yo with
      | some (cx, cy, area) =>
        match s.Q_rate.get? k with
        | some q =>
          contribLoop clip s xp yp rest
            (acc.1 ++ [cx], acc.2.1 ++ [cy], acc.2.2 ++ [area * q])
        | none => none
      | none => contribLoop clip s xp yp rest acc
    | _, _ => none

/-- The output of Streams::get_stream_recharge: the three by-reference
vectors xc, yc, Q (cleared on entry) and the returned flag. -/
structure RechargeOut where
  xc : List ℝ
  yc : List ℝ
  Q : List ℝ
  tf : Bool

/-- Streams::get_stream_recharge (streams.h lines 350-382).  The AABB-tree
query find_intersection_in_AABB_TREE is repository code not among the
given source files; Modelled from the spec (section 4.2): it returns a
conservative candidate superset, here taken as the inputs found (the
returned flag) and ids (the candidate triangle indices it filled in).
When found, the candidate triangle indices are mapped through stream_ids,
deduplicated through a std::map, and each unique segment id is clipped
against the cell footprint, one failing candidate being skipped while the
rest still contribute; when not found the cleared vectors are returned
with the flag false. -/
noncomputable def get_stream_recharge
    (clip : List ℝ → List ℝ → List ℝ → List ℝ → Option (ℝ × ℝ × ℝ))
    (s : StreamsState) (xp yp : List ℝ)
    (found : Bool) (ids : List ℕ) : Option RechargeOut :=
  if found then
    match lookupAll s.stream_ids ids with
    | some segids =>
      match contribLoop clip s xp yp (uniqueSorted segids) ([], [], []) with
      | some (xs, ys, qs) => some ⟨xs, ys, qs, true⟩
      | none => none
    | none => none
  else some ⟨[], [], [], false⟩

/-- The configuration the GWFLOW constructor stores (steady_state.h lines
81-101); of the stored references only the space dimension and the
caller-supplied list of top boundary ids matter to the recharge-face
decision studied here. -/
structure GWState where
  dim : ℕ
  top_boundary_ids : List ℤ

/-- The GWFLOW constructor (steady_state.h lines 81-101): it stores the
caller-supplied top_boundary_ids_in unchanged. -/
def GWFLOW_init (dim : ℕ) (ids : List ℤ) : GWState :=
  { dim := dim, top_boundary_ids := ids }

/-- The face condition under which GWFLOW::assemble integrates the
recharge term over a cell face (steady_state.h lines 187-190): the face is
at the boundary and its boundary id is 5 in three dimensions or 3 in two
dimensions.  The stored top_boundary_ids list appears nowhere in the
condition. -/
def assemble_face_applies_recharge (g : GWState)
    (at_boundary : Bool) (bid : ℤ) : Bool :=
  at_boundary && ((bid == 5 && g.dim == 3) || (bid == 3 && g.dim == 2))

/-- The abstract phases GWFLOW::Simulate runs, in source order. -/
inductive SimStep where
  | setup_system
  | well_contributions
  | stream_contributions
  | assemble_cell_loop
  | matrix_compress
  | rhs_compress
  | solve_system
  | write_output
  deriving DecidableEq

/-- GWFLOW::assemble (steady_state.h lines 138-217) as a phase trace: the
cell loop that accumulates the matrix and right-hand side, then the matrix
compress, then the right-hand-side vector compress (lines 215-216). -/
def assembleTrace : List SimStep :=
  [SimStep.assemble_cell_loop, SimStep.matrix_compress, SimStep.rhs_compress]

/-- GWFLOW::Simulate (steady_state.h lines 306-330) as a phase trace:
setup_system, then wells.add_contributions into system_rhs, then assemble,
then solve, then output.  The streams.add_contributions call that would
follow the well contributions is commented out in the source (lines
320-326), so no stream-contribution phase occurs. -/
def simulateTrace : List SimStep :=
  [SimStep.setup_system] ++ [SimStep.well_contributions] ++
    assembleTrace ++ [SimStep.solve_system] ++ [SimStep.write_output]

/-- The one-record stream file used as concrete input: first line 1, then
the record 0 0 10 0 5 1 — a horizontal segment from (0,0) to (10,0) with
rate 5 and half width 1. -/
noncomputable def sampleRec : StreamRecord :=
  { Ax := 0, Ay := 0, Bx := 10, By := 0, rate := 5, halfWidth := 1 }

/-- The segment-loop entry that processRecord produces for sampleRec: the
horizontal branch of create_river_outline fires, so the outline is
[0,0,10,10] by [-1,1,-1,1]. -/
noncomputable def sampleEntry : SegEntry :=
  { A := (0, 0), B := (10, 0), q := 5, len := 10, w := 1,
    xx := [0, 0, 10, 10], yy := [-1, 1, -1, 1],
    xmin := 0, xmax := 10, ymin := -1, ymax := 1,
    tri1 := ((0, -1, 0), (0, 1, 0), (10, -1, 0)),
    tri2 := ((0, 1, 0), (10, 1, 0), (10, -1, 0)) }

/-- The catalog read_streams builds from the one-record sample file. -/
noncomputable def sampleLoaded : StreamsState :=
  buildState initStreams [sampleEntry]

/-- Evaluating one loop iteration of read_streams on the sample record. -/
theorem processRecord_sampleRec : processRecord sampleRec = some sampleEntry := by
  simp only [processRecord, sampleRec, create_river_outline]
  rw [if_neg (by rw [abs_lt, abs_lt]; norm_num)]
  rw [if_neg (by rw [abs_lt]; norm_num)]
  rw [if_pos (by rw [abs_lt]; norm_num)]
  simp only [List.get?]
  simp only [sampleEntry, Option.some.injEq, SegEntry.mk.injEq, pointDistance]
  norm_num [List.foldl, min_def, max_def]
  rw [show (100:ℝ) = 10 ^ 2 by norm_num, Real.sqrt_sq (by norm_num)]

/-- Loading the one-record sample file succeeds and yields sampleLoaded. -/
theorem read_streams_sampleRec :
    read_streams initStreams (some [sampleRec]) = some (true, sampleLoaded) := by
  simp [read_streams, processAll, processRecord_sampleRec, sampleLoaded]

/-- C1: the spec requires read_streams and downstream code to tolerate a
buffered outline with fewer than 4 vertices with no read past the end of
the outline coordinate vectors.  The code does not: for a near-zero-length
record the outline is empty, and read_streams (streams.h lines 251-259)
still reads xx[0..3] and yy[0..3] to build the two catalog triangles —
reads past the end of the vectors, surfacing here as the none result. -/
theorem C1_degenerate_outline_reads_past_end :
    read_streams initStreams
      (some [{ Ax := 1, Ay := 2, Bx := 1.01, By := 2.01,
               rate := 5, halfWidth := 1 }]) = none := by
  have h : create_river_outline ((1:ℝ), (2:ℝ)) ((1.01:ℝ), (2.01:ℝ)) 1 = ([], []) := by
    rw [create_river_outline, if_pos (by norm_num [abs_lt])]
  simp [read_streams, processAll, processRecord, h]

/-- C7: when the stream file cannot be opened (the none input),
read_streams returns false and leaves the catalog exactly as it found it;
in particular, starting from the constructor state, every catalog
container — segments, outlines, bounding boxes, triangle index — stays
empty. -/
theorem C7_open_failure_no_partial_catalog :
    (∀ s : StreamsState, read_streams s none = some (false, s)) ∧
    initStreams.A = [] ∧ initStreams.B = [] ∧ initStreams.Q_rate = [] ∧
    initStreams.length = [] ∧ initStreams.width = [] ∧
    initStreams.Xoutline = [] ∧ initStreams.Youtline = [] ∧
    initStreams.Xmin = [] ∧ initStreams.Xmax = [] ∧
    initStreams.Ymin = [] ∧ initStreams.Ymax = [] ∧
    initStreams.stream_triangles = [] ∧ initStreams.stream_ids = [] ∧
    initStreams.N_seg = 0 :=
  ⟨fun _ => rfl, rfl, rfl, rfl, rfl, rfl, rfl, rfl, rfl, rfl, rfl, rfl,
   rfl, rfl, rfl⟩

/-- C3, counterexample: with the caller-supplied top boundary set [2] in
three dimensions, assemble still integrates recharge over a boundary face
with id 5, although 5 is not in the caller-supplied set — the face
selection is hard-coded, not the configured set. -/
theorem C3_counterexample_hardcoded_face_ids :
    assemble_face_applies_recharge (GWFLOW_init 3 [2]) true 5 = true ∧
    (5 : ℤ) ∉ ([2] : List ℤ) := by
  decide

/-- C3, amended: GWFLOW stores the caller-supplied top_boundary_ids, but
assemble ignores it: the recharge face integral is applied exactly on
boundary faces with id 5 in three dimensions and id 3 in two dimensions,
whatever list the caller supplied. -/
theorem C3_amended_recharge_face_selection :
    ∀ (dim : ℕ) (ids ids2 : List ℤ) (b : Bool) (bid : ℤ),
      assemble_face_applies_recharge (GWFLOW_init dim ids) b bid =
        assemble_face_applies_recharge (GWFLOW_init dim ids2) b bid ∧
      (assemble_face_applies_recharge (GWFLOW_init dim ids) b bid = true ↔
        b = true ∧ ((bid = 5 ∧ dim = 3) ∨ (bid = 3 ∧ dim = 2))) := by
  intro dim ids ids2 b bid
  refine ⟨rfl, ?_⟩
  simp [assemble_face_applies_recharge, GWFLOW_init]

/-- C4, counterexample: Simulate never runs a stream-contribution phase —
the streams.add_contributions call is commented out in the source
(steady_state.h lines 320-326) — refuting the claim that both well and
stream source contributions are injected. -/
theorem C4_counterexample_no_stream_phase :
    SimStep.stream_contributions ∉ simulateTrace := by
  decide

/-- C4, amended: every Simulate call executes, in order, DOF-field setup,
then the well source contributions into the right-hand side, then
assembly, then solve, then output; the well contributions precede the
right-hand-side compress barrier at the end of assembly, and no
stream-contribution phase is executed (the call is commented out). -/
theorem C4_amended_simulate_order :
    simulateTrace = [SimStep.setup_system, SimStep.well_contributions,
      SimStep.assemble_cell_loop, SimStep.matrix_compress,
      SimStep.rhs_compress, SimStep.solve_system, SimStep.write_output] ∧
    simulateTrace.indexOf SimStep.well_contributions <
      simulateTrace.indexOf SimStep.rhs_compress ∧
    SimStep.stream_contributions ∉ simulateTrace := by
  decide

/-- Folding min over a list never exceeds the initial sentinel. -/
theorem foldl_min_le_init (l : List ℝ) (init : ℝ) :
    l.foldl min init ≤ init := by
  induction l generalizing init with
  | nil => simp
  | cons a t ih =>
    simp only [List.foldl_cons]
    exact le_trans (ih (min init a)) (min_le_left _ _)

/-- Folding min over a list bounds every element from below: the
running-minimum loop of read_streams (streams.h lines 240-249). -/
theorem foldl_min_le (l : List ℝ) (init : ℝ) :
    ∀ x ∈ l, l.foldl min init ≤ x := by
  induction l generalizing init with
  | nil => simp
  | cons a t ih =>
    intro x hx
    simp only [List.foldl_cons]
    rcases List.mem_cons.mp hx with h | h
    · rw [h]
      exact le_trans (foldl_min_le_init t (min init a)) (min_le_right _ _)
    · exact ih (min init a) x h

/-- Folding max over a list never drops below the initial sentinel. -/
theorem init_le_foldl_max (l : List ℝ) (init : ℝ) :
    init ≤ l.foldl max init := by
  induction l generalizing init with
  | nil => simp
  | cons a t ih =>
    simp only [List.foldl_cons]
    exact le_trans (le_max_left _ _) (ih (max init a))

/-- Folding max over a list bounds every element from above: the
running-maximum loop of read_streams (streams.h lines 240-249). -/
theorem le_foldl_max (l : List ℝ) (init : ℝ) :
    ∀ x ∈ l, x ≤ l.foldl max init := by
  induction l generalizing init with
  | nil => simp
  | cons a t ih =>
    intro x hx
    simp only [List.foldl_cons]
    rcases List.mem_cons.mp hx with h | h
    · rw [h]
      exact le_trans (le_max_right _ _) (init_le_foldl_max t (max init a))
    · exact ih (max init a) x h

/-- A successful segment loop keeps one entry per record. -/
theorem processAll_length {recs : List StreamRecord} {es : List SegEntry}
    (h : processAll recs = some es) : es.length = recs.length := by
  induction recs generalizing es with
  | nil => simp only [processAll, Option.some.injEq] at h; subst h; rfl
  | cons r rs ih =>
    rw [processAll] at h
    cases hr : processRecord r with
    | none => rw [hr] at h; exact absurd h (by simp)
    | some e =>
      cases hrs : processAll rs with
      | none => rw [hr, hrs] at h; exact absurd h (by simp)
      | some es2 =>
        rw [hr, hrs] at h
        injection h with h
        subst h
        simp [ih hrs]

/-- Each entry of a successful segment loop comes from the record at the
same index. -/
theorem processAll_get {recs : List StreamRecord} {es : List SegEntry}
    (h : processAll recs = some es) :
    ∀ i e, es.get? i = some e →
      ∃ r, recs.get? i = some r ∧ processRecord r = some e := by
  induction recs generalizing es with
  | nil =>
    simp only [processAll, Option.some.injEq] at h
    subst h
    intro i e he
    simp at he
  | cons r rs ih =>
    rw [processAll] at h
    cases hr : processRecord r with
    | none => rw [hr] at h; exact absurd h (by simp)
    | some e0 =>
      cases hrs : processAll rs with
      | none => rw [hr, hrs] at h; exact absurd h (by simp)
      | some es2 =>
        rw [hr, hrs] at h
        injection h with h
        subst h
        intro i e he
        cases i with
        | zero =>
          simp only [List.get?_cons_zero, Option.some.injEq] at he
          subst he
          exact ⟨r, rfl, hr⟩
        | succ n =>
          simp only [List.get?_cons_succ] at he
          exact ih hrs n e he

/-- What one successful loop iteration guarantees for its entry: the
stored length is the Euclidean distance of the endpoints, and the stored
bounding box contains every outline vertex. -/
theorem processRecord_props {r : StreamRecord} {e : SegEntry}
    (h : processRecord r = some e) :
    e.len = pointDistance e.A e.B ∧
    (∀ x ∈ e.xx, e.xmin ≤ x ∧ x ≤ e.xmax) ∧
    (∀ y ∈ e.yy, e.ymin ≤ y ∧ y ≤ e.ymax) := by
  rw [processRecord] at h
  split at h
  · injection h with h
    subst h
    refine ⟨rfl, fun x hx => ⟨foldl_min_le _ _ x hx, le_foldl_max _ _ x hx⟩,
      fun y hy => ⟨foldl_min_le _ _ y hy, le_foldl_max _ _ y hy⟩⟩
  · exact absurd h (by simp)

/-- C9: for every record a successful read_streams loaded, the stored
segment length equals the Euclidean distance of the endpoints A and B, and
the stored axis-aligned bounding box contains every vertex of the computed
outline. -/
theorem C9_length_and_bounding_box (recs : List StreamRecord)
    (st : StreamsState) (i : ℕ)
    (h : read_streams initStreams (some recs) = some (true, st))
    (hi : i < st.N_seg) :
    ∃ a b len xs ys xmn xmx ymn ymx,
      st.A.get? i = some a ∧ st.B.get? i = some b ∧
      st.length.get? i = some len ∧
      st.Xoutline.get? i = some xs ∧ st.Youtline.get? i = some ys ∧
      st.Xmin.get? i = some xmn ∧ st.Xmax.get? i = some xmx ∧
      st.Ymin.get? i = some ymn ∧ st.Ymax.get? i = some ymx ∧
      len = pointDistance a b ∧
      (∀ x ∈ xs, xmn ≤ x ∧ x ≤ xmx) ∧
      (∀ y ∈ ys, ymn ≤ y ∧ y ≤ ymx) := by
  rw [read_streams] at h
  cases hall : processAll recs with
  | none => rw [hall] at h; exact absurd h (by simp)
  | some es =>
    rw [hall] at h
    injection h with h
    injection h with h1 h2
    subst h2
    have hlen : i < es.length := by
      simpa [buildState] using hi
    obtain ⟨e, he⟩ : ∃ e, es.get? i = some e := by
      rw [List.get?_eq_getElem?]
      exact ⟨es[i], List.getElem?_eq_getElem hlen⟩
    obtain ⟨r, _, hpr⟩ := processAll_get hall i e he
    obtain ⟨hd, hx, hy⟩ := processRecord_props hpr
    have he2 : es[i]? = some e := by rw [← List.get?_eq_getElem?]; exact he
    refine ⟨e.A, e.B, e.len, e.xx, e.yy, e.xmin, e.xmax, e.ymin, e.ymax,
      ?_, ?_, ?_, ?_, ?_, ?_, ?_, ?_, ?_, hd, hx, hy⟩ <;>
    simp [buildState, List.getElem?_map, he2]

/-- C9, witness: the sample one-record file, loaded, at index 0. -/
theorem C9_witness :
    read_streams initStreams (some [sampleRec]) = some (true, sampleLoaded) ∧
    0 < sampleLoaded.N_seg ∧
    (∃ a b len xs ys xmn xmx ymn ymx,
      sampleLoaded.A.get? 0 = some a ∧ sampleLoaded.B.get? 0 = some b ∧
      sampleLoaded.length.get? 0 = some len ∧
      sampleLoaded.Xoutline.get? 0 = some xs ∧
      sampleLoaded.Youtline.get? 0 = some ys ∧
      sampleLoaded.Xmin.get? 0 = some xmn ∧
      sampleLoaded.Xmax.get? 0 = some xmx ∧
      sampleLoaded.Ymin.get? 0 = some ymn ∧
      sampleLoaded.Ymax.get? 0 = some ymx ∧
      len = pointDistance a b ∧
      (∀ x ∈ xs, xmn ≤ x ∧ x ≤ xmx) ∧
      (∀ y ∈ ys, ymn ≤ y ∧ y ≤ ymx)) :=
  ⟨read_streams_sampleRec,
   by norm_num [sampleLoaded, buildState],
   C9_length_and_bounding_box [sampleRec] sampleLoaded 0 read_streams_sampleRec
     (by norm_num [sampleLoaded, buildState])⟩

/-- A flatMap that appends two entries per element doubles the length. -/
theorem flatMap_pair_length {α β : Type _} (es : List α) (f g : α → β) :
    (es.flatMap (fun e => [f e, g e])).length = 2 * es.length := by
  induction es with
  | nil => simp
  | cons a t ih =>
    simp only [List.flatMap_cons, List.cons_append, List.nil_append,
      List.length_cons, ih]
    omega

/-- Indexing the flatMap that repeats every element twice. -/
theorem pairs_get2 (l : List ℕ) (i : ℕ) :
    ((l.flatMap fun j => [j, j]).get? (2 * i)) = l.get? i ∧
    ((l.flatMap fun j => [j, j]).get? (2 * i + 1)) = l.get? i := by
  induction l generalizing i with
  | nil => simp
  | cons a t ih =>
    cases i with
    | zero => simp [List.flatMap_cons]
    | succ n =>
      have h := ih n
      constructor
      · rw [show 2 * (n + 1) = 2 * n + 1 + 1 from by ring]
        simp only [List.flatMap_cons, List.cons_append, List.get?_cons_succ]
        exact h.1
      · rw [show 2 * (n + 1) + 1 = 2 * n + 1 + 1 + 1 from by ring]
        simp only [List.flatMap_cons, List.cons_append, List.get?_cons_succ]
        exact h.2

/-- C10: after a successful read_streams, the triangle catalog and the id
list hold exactly two entries per segment, and the two entries at indices
2i and 2i+1 of stream_ids both carry the segment id i. -/
theorem C10_two_triangles_per_segment (recs : List StreamRecord)
    (st : StreamsState)
    (h : read_streams initStreams (some recs) = some (true, st)) :
    st.stream_triangles.length = 2 * st.N_seg ∧
    st.stream_ids.length = 2 * st.N_seg ∧
    ∀ i, i < st.N_seg →
      st.stream_ids.get? (2 * i) = some i ∧
      st.stream_ids.get? (2 * i + 1) = some i := by
  rw [read_streams] at h
  cases hall : processAll recs with
  | none => rw [hall] at h; exact absurd h (by simp)
  | some es =>
    rw [hall] at h
    injection h with h
    injection h with h1 h2
    subst h2
    refine ⟨?_, ?_, ?_⟩
    · simpa [buildState, initStreams] using
        flatMap_pair_length es SegEntry.tri1 SegEntry.tri2
    · simpa [buildState, initStreams, List.length_range] using
        flatMap_pair_length (List.range es.length) id id
    · intro i hi
      have hlen : i < es.length := by simpa [buildState] using hi
      have hp := pairs_get2 (List.range es.length) i
      have hr : (List.range es.length)[i]? = some i := by
        simp [List.getElem?_range, hlen]
      have h1 := hp.1
      have h2 := hp.2
      rw [List.get?_eq_getElem?, List.get?_eq_getElem?, hr] at h1 h2
      constructor
      · simpa [buildState, initStreams] using h1
      · simpa [buildState, initStreams] using h2

/-- C10, witness: the sample one-record file, loaded. -/
theorem C10_witness :
    read_streams initStreams (some [sampleRec]) = some (true, sampleLoaded) ∧
    (sampleLoaded.stream_triangles.length = 2 * sampleLoaded.N_seg ∧
     sampleLoaded.stream_ids.length = 2 * sampleLoaded.N_seg ∧
     ∀ i, i < sampleLoaded.N_seg →
       sampleLoaded.stream_ids.get? (2 * i) = some i ∧
       sampleLoaded.stream_ids.get? (2 * i + 1) = some i) :=
  ⟨read_streams_sampleRec,
   C10_two_triangles_per_segment [sampleRec] sampleLoaded read_streams_sampleRec⟩

/-- C8: on the catalog that read_streams actually builds, get_stream_rate
cannot return the first matching rate: read_streams fills Xoutline and
Youtline but never river_outline, so as soon as a bounding box contains
the query point the code reads river_outline[i_seg] past the end of an
empty vector (streams.h line 277) — undefined behaviour, the none result
here — whatever the point-inside predicate would have said.  The sample
point (5, 1/2) lies in the bounding box [0,10] x [-1,1] of the single
loaded segment, whose rate the claim says the call returns. -/
theorem C8_river_outline_read_past_end :
    read_streams initStreams (some [sampleRec]) = some (true, sampleLoaded) ∧
    ∀ pin : List Pt2 → Pt2 → Bool,
      get_stream_rate pin sampleLoaded 5 (1 / 2) = none := by
  refine ⟨read_streams_sampleRec, fun pin => ?_⟩
  have hN : sampleLoaded.N_seg = 1 := by simp [sampleLoaded, buildState]
  have hXmin : sampleLoaded.Xmin.get? 0 = some 0 := by
    simp [sampleLoaded, buildState, sampleEntry]
  have hXmax : sampleLoaded.Xmax.get? 0 = some 10 := by
    simp [sampleLoaded, buildState, sampleEntry]
  have hYmin : sampleLoaded.Ymin.get? 0 = some (-1) := by
    simp [sampleLoaded, buildState, sampleEntry]
  have hYmax : sampleLoaded.Ymax.get? 0 = some 1 := by
    simp [sampleLoaded, buildState, sampleEntry]
  have hout : sampleLoaded.river_outline.get? 0 = none := by
    simp [sampleLoaded, buildState, initStreams]
  rw [get_stream_rate, hN, show List.range 1 = [0] from rfl, get_stream_rate_loop,
    hXmin, hXmax, hYmin, hYmax]
  simp only [hout]
  rw [if_pos (by norm_num)]

/-- Membership in a sorted insertion. -/
theorem mem_insertSorted (k a : ℕ) (l : List ℕ) :
    a ∈ insertSorted k l ↔ a = k ∨ a ∈ l := by
  induction l with
  | nil => simp [insertSorted]
  | cons b t ih =>
    by_cases h1 : k < b
    · rw [insertSorted, if_pos h1]
      simp [List.mem_cons]
    · by_cases h2 : k = b
      · rw [insertSorted, if_neg h1, if_pos h2]
        subst h2
        simp [List.mem_cons]
      · rw [insertSorted, if_neg h1, if_neg h2]
        simp only [List.mem_cons, ih]
        tauto

/-- Sorted insertion preserves strict sortedness. -/
theorem pairwise_insertSorted (k : ℕ) (l : List ℕ)
    (h : l.Pairwise (· < ·)) : (insertSorted k l).Pairwise (· < ·) := by
  induction l with
  | nil => simp [insertSorted]
  | cons b t ih =>
    rw [List.pairwise_cons] at h
    obtain ⟨hb, ht⟩ := h
    by_cases h1 : k < b
    · rw [insertSorted, if_pos h1]
      refine List.Pairwise.cons ?_ (List.Pairwise.cons hb ht)
      intro x hx
      rcases List.mem_cons.mp hx with rfl | hx
      · exact h1
      · exact lt_trans h1 (hb x hx)
    · by_cases h2 : k = b
      · rw [insertSorted, if_neg h1, if_pos h2]
        exact List.Pairwise.cons hb ht
      · rw [insertSorted, if_neg h1, if_neg h2]
        refine List.Pairwise.cons ?_ (ih ht)
        intro x hx
        rcases (mem_insertSorted k x t).mp hx with rfl | hx
        · omega
        · exact hb x hx

/-- The std::map key set stays strictly sorted through the whole
deduplication fold. -/
theorem uniqueSorted_fold_pairwise (l acc : List ℕ)
    (h : acc.Pairwise (· < ·)) :
    (l.foldl (fun acc k => insertSorted k acc) acc).Pairwise (· < ·) := by
  induction l generalizing acc with
  | nil => simpa using h
  | cons a t ih =>
    simp only [List.foldl_cons]
    exact ih _ (pairwise_insertSorted a acc h)

/-- The deduplicated id list get_stream_recharge iterates holds no
duplicate segment id. -/
theorem uniqueSorted_nodup (l : List ℕ) : (uniqueSorted l).Nodup :=
  List.Pairwise.imp (fun h => Nat.ne_of_lt h)
    (uniqueSorted_fold_pairwise l [] List.Pairwise.nil)

/-- Membership through the deduplication fold. -/
theorem mem_uniqueSorted_fold (l acc : List ℕ) (a : ℕ) :
    a ∈ l.foldl (fun acc k => insertSorted k acc) acc ↔ a ∈ acc ∨ a ∈ l := by
  induction l generalizing acc with
  | nil => simp
  | cons b t ih =>
    simp only [List.foldl_cons, ih, mem_insertSorted, List.mem_cons]
    tauto

/-- Deduplication keeps exactly the ids that occurred. -/
theorem mem_uniqueSorted (l : List ℕ) (a : ℕ) :
    a ∈ uniqueSorted l ↔ a ∈ l := by
  rw [uniqueSorted, mem_uniqueSorted_fold]
  simp

/-- A filterMap holds one entry per element the function accepts. -/
theorem length_filterMap_eq_countP {α β : Type _} (l : List α)
    (f : α → Option β) :
    (l.filterMap f).length = l.countP (fun a => (f a).isSome) := by
  induction l with
  | nil => simp
  | cons a t ih =>
    cases hf : f a with
    | none => simp [List.filterMap_cons, hf, ih, List.countP_cons]
    | some b => simp [List.filterMap_cons, hf, ih, List.countP_cons]

/-- Characterization of the clip-candidate loop: when every candidate id
is in range, the loop never fails, and each output vector collects exactly
the successful candidates in order — a failing candidate contributes
nothing and the loop moves on. -/
theorem contribLoop_eq
    (clip : List ℝ → List ℝ → List ℝ → List ℝ → Option (ℝ × ℝ × ℝ))
    (s : StreamsState) (xp yp : List ℝ) (l : List ℕ)
    (acc : List ℝ × List ℝ × List ℝ)
    (hok : ∀ k ∈ l, k < s.Xoutline.length ∧ k < s.Youtline.length ∧
      k < s.Q_rate.length) :
    contribLoop clip s xp yp l acc =
      some (acc.1 ++ l.filterMap (fun k =>
              (clip xp yp (s.Xoutline.getD k []) (s.Youtline.getD k [])).map
                (fun r => r.1)),
            acc.2.1 ++ l.filterMap (fun k =>
              (clip xp yp (s.Xoutline.getD k []) (s.Youtline.getD k [])).map
                (fun r => r.2.1)),
            acc.2.2 ++ l.filterMap (fun k =>
              (clip xp yp (s.Xoutline.getD k []) (s.Youtline.getD k [])).map
                (fun r => r.2.2 * s.Q_rate.getD k 0))) := by
  induction l generalizing acc with
  | nil => simp [contribLoop]
  | cons k rest ih =>
    obtain ⟨hx, hy, hq⟩ := hok k (List.mem_cons_self k rest)
    have hxo : s.Xoutline.get? k = some (s.Xoutline.getD k []) := by
      rw [List.get?_eq_getElem?, List.getElem?_eq_getElem hx,
        List.getD_eq_getElem?_getD, List.getElem?_eq_getElem hx]
      simp
    have hyo : s.Youtline.get? k = some (s.Youtline.getD k []) := by
      rw [List.get?_eq_getElem?, List.getElem?_eq_getElem hy,
        List.getD_eq_getElem?_getD, List.getElem?_eq_getElem hy]
      simp
    have hqo : s.Q_rate.get? k = some (s.Q_rate.getD k 0) := by
      rw [List.get?_eq_getElem?, List.getElem?_eq_getElem hq,
        List.getD_eq_getElem?_getD, List.getElem?_eq_getElem hq]
      simp
    have hrest : ∀ j ∈ rest, j < s.Xoutline.length ∧ j < s.Youtline.length ∧
        j < s.Q_rate.length := fun j hj => hok j (List.mem_cons_of_mem k hj)
    cases hclip : clip xp yp (s.Xoutline.getD k []) (s.Youtline.getD k []) with
    | none =>
      have e1 : List.filterMap (fun j => Option.map (fun r : ℝ × ℝ × ℝ => r.1)
          (clip xp yp (s.Xoutline.getD j []) (s.Youtline.getD j []))) (k :: rest) =
          List.filterMap (fun j => Option.map (fun r : ℝ × ℝ × ℝ => r.1)
          (clip xp yp (s.Xoutline.getD j []) (s.Youtline.getD j []))) rest := by
        simp only [List.filterMap_cons, hclip, Option.map_some', Option.map_none']
      have e2 : List.filterMap (fun j => Option.map (fun r : ℝ × ℝ × ℝ => r.2.1)
          (clip xp yp (s.Xoutline.getD j []) (s.Youtline.getD j []))) (k :: rest) =
          List.filterMap (fun j => Option.map (fun r : ℝ × ℝ × ℝ => r.2.1)
          (clip xp yp (s.Xoutline.getD j []) (s.Youtline.getD j []))) rest := by
        simp only [List.filterMap_cons, hclip, Option.map_some', Option.map_none']
      have e3 : List.filterMap (fun j => Option.map
          (fun r : ℝ × ℝ × ℝ => r.2.2 * s.Q_rate.getD j 0)
          (clip xp yp (s.Xoutline.getD j []) (s.Youtline.getD j []))) (k :: rest) =
          List.filterMap (fun j => Option.map
          (fun r : ℝ × ℝ × ℝ => r.2.2 * s.Q_rate.getD j 0)
          (clip xp yp (s.Xoutline.getD j []) (s.Youtline.getD j []))) rest := by
        simp only [List.filterMap_cons, hclip, Option.map_some', Option.map_none']
      rw [contribLoop]
      simp only [hxo, hyo, hclip]
      rw [ih acc hrest, e1, e2, e3]
    | some v =>
      obtain ⟨cx, cy, ar⟩ := v
      have e1 : List.filterMap (fun j => Option.map (fun r : ℝ × ℝ × ℝ => r.1)
          (clip xp yp (s.Xoutline.getD j []) (s.Youtline.getD j []))) (k :: rest) =
          cx :: List.filterMap (fun j => Option.map (fun r : ℝ × ℝ × ℝ => r.1)
          (clip xp yp (s.Xoutline.getD j []) (s.Youtline.getD j []))) rest := by
        simp only [List.filterMap_cons, hclip, Option.map_some', Option.map_none']
      have e2 : List.filterMap (fun j => Option.map (fun r : ℝ × ℝ × ℝ => r.2.1)
          (clip xp yp (s.Xoutline.getD j []) (s.Youtline.getD j []))) (k :: rest) =
          cy :: List.filterMap (fun j => Option.map (fun r : ℝ × ℝ × ℝ => r.2.1)
          (clip xp yp (s.Xoutline.getD j []) (s.Youtline.getD j []))) rest := by
        simp only [List.filterMap_cons, hclip, Option.map_some', Option.map_none']
      have e3 : List.filterMap (fun j => Option.map
          (fun r : ℝ × ℝ × ℝ => r.2.2 * s.Q_rate.getD j 0)
          (clip xp yp (s.Xoutline.getD j []) (s.Youtline.getD j []))) (k :: rest) =
          (ar * s.Q_rate.getD k 0) :: List.filterMap (fun j => Option.map
          (fun r : ℝ × ℝ × ℝ => r.2.2 * s.Q_rate.getD j 0)
          (clip xp yp (s.Xoutline.getD j []) (s.Youtline.getD j []))) rest := by
        simp only [List.filterMap_cons, hclip, Option.map_some']
      rw [contribLoop]
      simp only [hxo, hyo, hclip, hqo]
      rw [ih (acc.1 ++ [cx], acc.2.1 ++ [cy],
        acc.2.2 ++ [ar * s.Q_rate.getD k 0]) hrest, e1, e2, e3]
      simp only [List.append_assoc, List.singleton_append]

/-- C5: during get_stream_recharge for one cell, a clip failure (the none
result of the modelled polyXpoly, the thrown exception in the source) for
one candidate segment only removes that candidate from the three output
vectors: the call still succeeds and every other candidate of the same
cell contributes exactly as it would have — one failing candidate never
aborts the whole recharge computation. -/
theorem C5_clip_failure_is_isolated
    (clip : List ℝ → List ℝ → List ℝ → List ℝ → Option (ℝ × ℝ × ℝ))
    (s : StreamsState) (xp yp : List ℝ) (ids segids : List ℕ)
    (hseg : lookupAll s.stream_ids ids = some segids)
    (hok : ∀ k ∈ uniqueSorted segids, k < s.Xoutline.length ∧
      k < s.Youtline.length ∧ k < s.Q_rate.length) :
    get_stream_recharge clip s xp yp true ids =
      some { xc := (uniqueSorted segids).filterMap (fun j =>
               (clip xp yp (s.Xoutline.getD j []) (s.Youtline.getD j [])).map
                 (fun r => r.1)),
             yc := (uniqueSorted segids).filterMap (fun j =>
               (clip xp yp (s.Xoutline.getD j []) (s.Youtline.getD j [])).map
                 (fun r => r.2.1)),
             Q := (uniqueSorted segids).filterMap (fun j =>
               (clip xp yp (s.Xoutline.getD j []) (s.Youtline.getD j [])).map
                 (fun r => r.2.2 * s.Q_rate.getD j 0)),
             tf := true } := by
  simp only [get_stream_recharge, hseg, eq_self_iff_true, if_true,
    contribLoop_eq clip s xp yp (uniqueSorted segids) ([], [], []) hok]
  simp

/-- C5, witness: the loaded sample catalog, candidate triangle indices
[0, 1] (both triangles of segment 0), and a clip that returns the
intersection (1, 2, 3). -/
theorem C5_witness :
    (lookupAll sampleLoaded.stream_ids [0, 1] = some [0, 0]) ∧
    (∀ k ∈ uniqueSorted [0, 0], k < sampleLoaded.Xoutline.length ∧
      k < sampleLoaded.Youtline.length ∧ k < sampleLoaded.Q_rate.length) ∧
    get_stream_recharge (fun _ _ _ _ => some (1, 2, 3)) sampleLoaded
        [] [] true [0, 1] =
      some { xc := (uniqueSorted [0, 0]).filterMap (fun j =>
               (some ((1:ℝ), (2:ℝ), (3:ℝ))).map (fun r => r.1)),
             yc := (uniqueSorted [0, 0]).filterMap (fun j =>
               (some ((1:ℝ), (2:ℝ), (3:ℝ))).map (fun r => r.2.1)),
             Q := (uniqueSorted [0, 0]).filterMap (fun j =>
               (some ((1:ℝ), (2:ℝ), (3:ℝ))).map
                 (fun r => r.2.2 * sampleLoaded.Q_rate.getD j 0)),
             tf := true } := by
  have h1 : lookupAll sampleLoaded.stream_ids [0, 1] = some [0, 0] := by
    simp [sampleLoaded, buildState, initStreams, lookupAll, List.range_succ]
  have h2 : ∀ k ∈ uniqueSorted [0, 0], k < sampleLoaded.Xoutline.length ∧
      k < sampleLoaded.Youtline.length ∧ k < sampleLoaded.Q_rate.length := by
    intro k hk
    have hk0 : k = 0 := by
      have := (mem_uniqueSorted [0, 0] k).mp hk
      simpa using this
    subst hk0
    refine ⟨?_, ?_, ?_⟩ <;> norm_num [sampleLoaded, buildState]
  exact ⟨h1, h2, C5_clip_failure_is_isolated (fun _ _ _ _ => some (1, 2, 3))
    sampleLoaded [] [] [0, 1] [0, 0] h1 h2⟩

/-- C6: get_stream_recharge deduplicates the spatial-index candidates to
unique segment ids (the deduplicated list has no duplicates and holds
exactly the looked-up ids), emits at most one contribution per unique
candidate — exactly one per candidate whose clip succeeds, none for a
candidate whose intersection is empty or fails — and every emitted
weighted rate is the intersection area times that segment's rate. -/
theorem C6_unique_contribution_per_segment
    (clip : List ℝ → List ℝ → List ℝ → List ℝ → Option (ℝ × ℝ × ℝ))
    (s : StreamsState) (xp yp : List ℝ) (ids segids : List ℕ)
    (hseg : lookupAll s.stream_ids ids = some segids)
    (hok : ∀ k ∈ uniqueSorted segids, k < s.Xoutline.length ∧
      k < s.Youtline.length ∧ k < s.Q_rate.length) :
    ∃ xc yc Q, get_stream_recharge clip s xp yp true ids =
        some { xc := xc, yc := yc, Q := Q, tf := true } ∧
      (uniqueSorted segids).Nodup ∧
      (∀ k, k ∈ uniqueSorted segids ↔ k ∈ segids) ∧
      Q.length = (uniqueSorted segids).countP (fun k =>
        (clip xp yp (s.Xoutline.getD k []) (s.Youtline.getD k [])).isSome) ∧
      (∀ q ∈ Q, ∃ k ∈ uniqueSorted segids, ∃ cx cy area,
        clip xp yp (s.Xoutline.getD k []) (s.Youtline.getD k []) =
          some (cx, cy, area) ∧ q = area * s.Q_rate.getD k 0) := by
  have hrun := contribLoop_eq clip s xp yp (uniqueSorted segids)
    ([], [], []) hok
  refine ⟨(uniqueSorted segids).filterMap (fun k =>
      (clip xp yp (s.Xoutline.getD k []) (s.Youtline.getD k [])).map
        (fun r => r.1)),
    (uniqueSorted segids).filterMap (fun k =>
      (clip xp yp (s.Xoutline.getD k []) (s.Youtline.getD k [])).map
        (fun r => r.2.1)),
    (uniqueSorted segids).filterMap (fun k =>
      (clip xp yp (s.Xoutline.getD k []) (s.Youtline.getD k [])).map
        (fun r => r.2.2 * s.Q_rate.getD k 0)),
    ?_, uniqueSorted_nodup segids,
    fun k => mem_uniqueSorted segids k, ?_, ?_⟩
  · simp only [get_stream_recharge, hseg, eq_self_iff_true, if_true, hrun,
      List.nil_append]
  · have hlen := length_filterMap_eq_countP (uniqueSorted segids)
      (fun k => (clip xp yp (s.Xoutline.getD k []) (s.Youtline.getD k [])).map
        (fun r => r.2.2 * s.Q_rate.getD k 0))
    simpa [Option.isSome_map'] using hlen
  · intro q hq
    obtain ⟨k, hkmem, hkeq⟩ := List.mem_filterMap.mp hq
    obtain ⟨r, hr, hrq⟩ := Option.map_eq_some'.mp hkeq
    obtain ⟨cx, cy, area⟩ := r
    exact ⟨k, hkmem, cx, cy, area, hr, hrq.symm⟩

/-- C6, witness: the loaded sample catalog with candidate triangle indices
[0, 1], which deduplicate to the single segment id 0. -/
theorem C6_witness :
    (lookupAll sampleLoaded.stream_ids [0, 1] = some [0, 0]) ∧
    (∀ k ∈ uniqueSorted [0, 0], k < sampleLoaded.Xoutline.length ∧
      k < sampleLoaded.Youtline.length ∧ k < sampleLoaded.Q_rate.length) ∧
    ∃ xc yc Q, get_stream_recharge (fun _ _ _ _ => some (4, 5, 6))
        sampleLoaded [] [] true [0, 1] =
        some { xc := xc, yc := yc, Q := Q, tf := true } ∧
      (uniqueSorted [0, 0]).Nodup ∧
      (∀ k, k ∈ uniqueSorted [0, 0] ↔ k ∈ [0, 0]) ∧
      Q.length = (uniqueSorted [0, 0]).countP (fun k =>
        (some ((4:ℝ), (5:ℝ), (6:ℝ))).isSome) ∧
      (∀ q ∈ Q, ∃ k ∈ uniqueSorted [0, 0], ∃ cx cy area,
        some ((4:ℝ), (5:ℝ), (6:ℝ)) = some (cx, cy, area) ∧
        q = area * sampleLoaded.Q_rate.getD k 0) := by
  have h1 : lookupAll sampleLoaded.stream_ids [0, 1] = some [0, 0] := by
    simp [sampleLoaded, buildState, initStreams, lookupAll, List.range_succ]
  have h2 : ∀ k ∈ uniqueSorted [0, 0], k < sampleLoaded.Xoutline.length ∧
      k < sampleLoaded.Youtline.length ∧ k < sampleLoaded.Q_rate.length := by
    intro k hk
    have hk0 : k = 0 := by
      have := (mem_uniqueSorted [0, 0] k).mp hk
      simpa using this
    subst hk0
    refine ⟨?_, ?_, ?_⟩ <;> norm_num [sampleLoaded, buildState]
  exact ⟨h1, h2, C6_unique_contribution_per_segment
    (fun _ _ _ _ => some (4, 5, 6)) sampleLoaded [] [] [0, 1] [0, 0] h1 h2⟩
